import Mathlib

/-!
# Verification of the `ClientPool` resource pool (`src/client-pool.js`)
and the browser-slot semaphore (`src/meta-client.js`)

A shallow embedding of the pool's state and operations as pure Lean
functions.  JavaScript's single-threaded execution model means each
synchronous section of the source (the code between two `await`
suspension points) runs atomically; each such section is embedded as a
pure state-transition function.  Machine integers in the source are
plain JS numbers used as counters/timestamps, embedded as `Nat`.
JS falsiness of `0`/`null`/`undefined` is modelled explicitly where the
source relies on it (`x || default`, truthiness tests on timestamps).
-/

namespace CloroPool

/-! ## Constants (src/client-pool.js lines 3-7, src/meta-client.js line 10) -/

def HEALTH_CHECK_INTERVAL : Nat := 60000
def STAGGER_DELAY : Nat := 5000
def WARMUP_BATCH_SIZE : Nat := 2
def DEFAULT_QUEUE_TIMEOUT : Nat := 120000
def SESSION_MAX_AGE : Nat := 10 * 60000
def MAX_CONCURRENT_BROWSERS : Nat := 3

/-! ## JS helpers -/

/-- JS `x || d` for an optional number: `undefined`/`null` (`none`) and the
falsy number `0` fall back to `d`. -/
def jsOrNat (x : Option Nat) (d : Nat) : Nat :=
  match x with
  | none => d
  | some n => if n = 0 then d else n

/-- `haystack.includes(needle)` on JS strings, over the character lists. -/
def jsIncludes (haystack needle : String) : Bool :=
  haystack.data.tails.any (fun t => needle.data.isPrefixOf t)

/-- Update the element at position `i` of a list, leaving other positions
(and an out-of-range `i`) unchanged.  Models in-place mutation of the
object held at index `i` of a JS array. -/
def updateAt {α : Type} (i : Nat) (f : α → α) : List α → List α
  | [] => []
  | x :: xs =>
    match i with
    | 0 => f x :: xs
    | n + 1 => x :: updateAt n f xs

/-! ## MetaAIClient (src/meta-client.js)

Only the constructor-established state and `resetSession` matter to the
pool claims; the scraping internals (`getCookies`, `sendMessage`, …) are
external collaborators in the spec's sense.  Every field of the JS object
established by `constructor(proxy = null, id = null)` is a function of
`proxy` and `id` alone (`proxyDispatcher`, `proxyServer`, `proxyAuth` are
derived from `proxy`; `userAgent` from `id`); we keep `proxy`, `id`, the
user-agent index, and the mutable session material. -/

structure MetaAIClient where
  proxy : Option String
  id : Option Nat
  userAgentIdx : Option Nat
  cookies : Option String
  accessToken : Option String
deriving Repr, DecidableEq

def USER_AGENTS_length : Nat := 16

/-- Extra options object passed by `ClientPool` at the `new MetaAIClient(...)`
call site (src/client-pool.js line 29). -/
structure ClientExtraOpts where
  browserProxy : Option String
deriving Repr, DecidableEq

/-- `constructor(proxy = null, id = null)` (src/meta-client.js lines 138-159).
The JS constructor declares exactly two parameters; a third argument
supplied at a call site is evaluated and then discarded by JS call
semantics, which is why `extraArg` does not occur in the result. -/
def MetaAIClient.construct (proxy : Option String) (id : Option Nat)
    (extraArg : Option ClientExtraOpts) : MetaAIClient :=
  { proxy := proxy
    id := id
    userAgentIdx := id.map (fun i => i % USER_AGENTS_length)
    cookies := none
    accessToken := none }

/-- `resetSession()` (src/meta-client.js): discards cached session material. -/
def MetaAIClient.resetSession (c : MetaAIClient) : MetaAIClient :=
  { c with cookies := none, accessToken := none }

/-! ## Pool data model (src/client-pool.js lines 15-36) -/

/-- One pool slot: the object pushed onto `this.entries`. -/
structure Entry where
  id : Nat
  client : MetaAIClient
  busy : Bool
  ready : Bool
  initializing : Bool
  sessionCreatedAt : Option Nat
deriving Repr, DecidableEq

/-- Default entry used for out-of-range list reads (never hit under the
`i < entries.length` hypotheses of the theorems). -/
def dEntry : Entry :=
  { id := 0, client := MetaAIClient.construct none none none
    busy := false, ready := false, initializing := false
    sessionCreatedAt := none }

instance : Inhabited Entry := ⟨dEntry⟩

/-- A wait-queue record `{ resolve, timer }`: `wid` stands for the identity
of the `resolve` closure, `timer` for the duration the timer was armed
with. -/
structure Waiter where
  wid : Nat
  timer : Nat
deriving Repr, DecidableEq

/-- The pool's mutable state. `healthCheckTimer` records whether the
interval timer has been started. -/
structure ClientPool where
  poolSize : Nat
  queueTimeout : Nat
  proxy : Option String
  browserProxy : Option String
  entries : List Entry
  healthCheckTimer : Bool
  waitQueue : List Waiter
  completedCount : Nat
  queuedCount : Nat
deriving Repr, DecidableEq

/-- Options object of the `ClientPool` constructor. -/
structure PoolOpts where
  queueTimeout : Option Nat
  proxy : Option String
  browserProxy : Option String
deriving Repr, DecidableEq

def PoolOpts.empty : PoolOpts := ⟨none, none, none⟩

/-- `constructor(poolSize = 15, opts = {})` (src/client-pool.js lines 15-36).
Each entry's client is built by `new MetaAIClient(this.proxy, i,
{ browserProxy: this.browserProxy })`. -/
def ClientPool.construct (poolSize : Nat) (opts : PoolOpts) : ClientPool :=
  { poolSize := poolSize
    queueTimeout := jsOrNat opts.queueTimeout DEFAULT_QUEUE_TIMEOUT
    proxy := opts.proxy
    browserProxy := opts.browserProxy
    entries := (List.range poolSize).map (fun i =>
      { id := i
        client := MetaAIClient.construct opts.proxy (some i)
            (some ⟨opts.browserProxy⟩)
        busy := false
        ready := false
        initializing := false
        sessionCreatedAt := none })
    healthCheckTimer := false
    waitQueue := []
    completedCount := 0
    queuedCount := 0 }

/-! ## acquire / release / queue timer (src/client-pool.js lines 99-153) -/

/-- The predicate of `entries.find((e) => e.ready && !e.busy)`. -/
def isFree (e : Entry) : Bool := e.ready && !e.busy

inductive AcquireResult where
  | acquired (idx : Nat)
  | noHealthy
  | enqueued (wid : Nat) (timeout : Nat)
deriving Repr, DecidableEq

/-- `acquire(timeoutMs)` (src/client-pool.js lines 99-131), the synchronous
section up to either returning a free entry, throwing
`No healthy clients available`, or pushing `{ resolve, timer }` onto the
wait queue with a timer armed for `timeout` ms.  `wid` is the fresh
identity of this call's `resolve` closure. -/
def acquire (p : ClientPool) (timeoutMs : Option Nat) (wid : Nat) :
    ClientPool × AcquireResult :=
  let timeout := jsOrNat timeoutMs p.queueTimeout
  match p.entries.findIdx? isFree with
  | some i =>
    ({ p with entries := updateAt i (fun e => { e with busy := true }) p.entries },
      AcquireResult.acquired i)
  | none =>
    let readyCount := (p.entries.filter (fun e => e.ready)).length
    if readyCount = 0 then
      (p, AcquireResult.noHealthy)
    else
      ({ p with
          queuedCount := p.queuedCount + 1
          waitQueue := p.waitQueue ++ [⟨wid, timeout⟩] },
        AcquireResult.enqueued wid timeout)

inductive ReleaseEvent where
  /-- The head waiter was popped, its timer cancelled via `clearTimeout`,
  and its promise resolved with entry `idx` (which stays busy). -/
  | handoff (wid : Nat) (idx : Nat)
  /-- No handoff: entry `idx` was marked `busy = false`. -/
  | idle (idx : Nat)
deriving Repr, DecidableEq

/-- `release(entry)` (src/client-pool.js lines 137-153) for the entry at
index `i` of `this.entries`. -/
def release (p : ClientPool) (i : Nat) : ClientPool × ReleaseEvent :=
  let e := p.entries.getD i dEntry
  let r :=
    match p.waitQueue with
    | next :: rest =>
      if e.ready then
        ({ p with waitQueue := rest }, ReleaseEvent.handoff next.wid i)
      else
        ({ p with entries := updateAt i (fun x => { x with busy := false }) p.entries },
          ReleaseEvent.idle i)
    | [] =>
      ({ p with entries := updateAt i (fun x => { x with busy := false }) p.entries },
        ReleaseEvent.idle i)
  ({ r.1 with completedCount := r.1.completedCount + 1 }, r.2)

/-- The `setTimeout` callback of a queued acquire (src/client-pool.js lines
122-127): look the waiter up by the identity of its `resolve`, splice it
out if still present, and reject with `Queue timeout`.  Returns whether
the waiter was found and removed. -/
def timerFire (p : ClientPool) (wid : Nat) : ClientPool × Bool :=
  match p.waitQueue.findIdx? (fun w => w.wid == wid) with
  | some idx => ({ p with waitQueue := p.waitQueue.eraseIdx idx }, true)
  | none => (p, false)

/-! ### A unified step machine over the three queue-touching operations,
used to state which operations can resolve a queued waiter. -/

inductive PoolOp where
  | opAcquire (timeoutMs : Option Nat) (wid : Nat)
  | opRelease (idx : Nat)
  | opTimer (wid : Nat)
deriving Repr, DecidableEq

inductive PoolEv where
  | evAcquired (idx : Nat)
  | evNoHealthy
  | evEnqueued (wid : Nat) (timeout : Nat)
  /-- Waiter `wid`'s promise resolved with entry `idx` by a release handoff. -/
  | evHandoff (wid : Nat) (idx : Nat)
  | evIdle (idx : Nat)
  /-- Waiter `wid` removed from the queue and rejected with QueueTimeout. -/
  | evTimeout (wid : Nat)
  | evTimerStale (wid : Nat)
deriving Repr, DecidableEq

def poolStep (p : ClientPool) (op : PoolOp) : ClientPool × PoolEv :=
  match op with
  | PoolOp.opAcquire t wid =>
    let r := acquire p t wid
    (r.1, match r.2 with
      | AcquireResult.acquired i => PoolEv.evAcquired i
      | AcquireResult.noHealthy => PoolEv.evNoHealthy
      | AcquireResult.enqueued w tm => PoolEv.evEnqueued w tm)
  | PoolOp.opRelease i =>
    let r := release p i
    (r.1, match r.2 with
      | ReleaseEvent.handoff w idx => PoolEv.evHandoff w idx
      | ReleaseEvent.idle idx => PoolEv.evIdle idx)
  | PoolOp.opTimer wid =>
    let r := timerFire p wid
    (r.1, if r.2 then PoolEv.evTimeout wid else PoolEv.evTimerStale wid)

/-! ## execute (src/client-pool.js lines 161-186) -/

/-- The session/auth-error classifier of `execute`'s catch block
(src/client-pool.js lines 169-176): `err.message || ""` tested with
`String.prototype.includes` against the six markers. -/
def isSessionErrorMsg (msg : String) : Bool :=
  jsIncludes msg "access token" ||
  jsIncludes msg "LSD token" ||
  jsIncludes msg "401" ||
  jsIncludes msg "403" ||
  jsIncludes msg "session" ||
  jsIncludes msg "exhausted"

/-- Outcome of the awaited caller-supplied operation `fn(entry.client)`. -/
inductive FnOutcome (α : Type) where
  | ok (v : α)
  | err (msg : String)
deriving Repr, DecidableEq

/-- What `execute` does after the `try` block settles: return the result or
rethrow the original error object (its message unchanged). -/
inductive ExecResult (α : Type) where
  | success (v : α)
  | failure (msg : String)
deriving Repr, DecidableEq

/-- Observable actions of one `execute` call after its `acquire` resolved. -/
inductive ExecEvent where
  | evFnCall (idx : Nat)
  /-- `entry.ready = false; entry.sessionCreatedAt = null` in the catch
  block. -/
  | evMarkUnhealthy (idx : Nat)
  | evResetSession (idx : Nat)
  /-- the `finally { this.release(entry) }`, with release's own event. -/
  | evReleased (ev : ReleaseEvent)
deriving Repr, DecidableEq

/-- `execute(fn, timeoutMs)` from the point its `acquire` resolved with the
entry at index `i` (src/client-pool.js lines 163-185): run `fn`, on error
classify and possibly mark the entry unhealthy and reset its session,
rethrow, and in all cases run `release` in the `finally`.  The event
trace records each action in execution order. -/
def executeAfterAcquire {α : Type} (p : ClientPool) (i : Nat)
    (outcome : FnOutcome α) : ClientPool × ExecResult α × List ExecEvent :=
  match outcome with
  | FnOutcome.ok v =>
    let r := release p i
    (r.1, ExecResult.success v, [ExecEvent.evFnCall i, ExecEvent.evReleased r.2])
  | FnOutcome.err msg =>
    if isSessionErrorMsg msg then
      let markBad := fun (e : Entry) => { e with ready := false, sessionCreatedAt := none }
      let p1 := { p with entries := updateAt i markBad p.entries }
      let doReset := fun (e : Entry) => { e with client := e.client.resetSession }
      let p2 := { p1 with entries := updateAt i doReset p1.entries }
      let r := release p2 i
      (r.1, ExecResult.failure msg,
        [ExecEvent.evFnCall i, ExecEvent.evMarkUnhealthy i,
          ExecEvent.evResetSession i, ExecEvent.evReleased r.2])
    else
      let r := release p i
      (r.1, ExecResult.failure msg,
        [ExecEvent.evFnCall i, ExecEvent.evReleased r.2])

/-! ## warmup (src/client-pool.js lines 43-91) -/

/-- The batches produced by the warmup loop
`for (batchStart = 0; batchStart < entries.length; batchStart += 2)`
with `batch = entries.slice(batchStart, min(batchStart + 2, length))`,
i.e. successive chunks of `WARMUP_BATCH_SIZE = 2` in index order. -/
def chunks2 {α : Type} : List α → List (List α)
  | [] => []
  | [a] => [[a]]
  | a :: b :: rest => [a, b] :: chunks2 rest

/-- Net effect of one entry's warmup initialization (the async closure at
src/client-pool.js lines 58-72): `initializing` toggled on and back off,
`ready`/`sessionCreatedAt` set on success, `ready = false` on failure. -/
def warmEntry (initOk : Nat → Bool) (now : Nat) (e : Entry) : Entry :=
  if initOk e.id then
    { e with ready := true, sessionCreatedAt := some now, initializing := false }
  else
    { e with ready := false, initializing := false }

/-- Timeline markers of the warmup loop. -/
inductive WEvent where
  | wBatch (ids : List Nat)
  /-- the 5 s `STAGGER_DELAY` sleep between batches. -/
  | wStagger
deriving Repr, DecidableEq

/-- The warmup loop body over the batch list: run a batch, then sleep the
stagger delay only when entries remain (`batchEnd < entries.length`). -/
def warmupGo (initOk : Nat → Bool) (now : Nat) :
    List (List Entry) → List Entry × Nat × List WEvent
  | [] => ([], 0, [])
  | b :: rest =>
    let b' := b.map (warmEntry initOk now)
    let cnt := (b.filter (fun e => initOk e.id)).length
    let r := warmupGo initOk now rest
    (b' ++ r.1, cnt + r.2.1,
      WEvent.wBatch (b.map Entry.id) ::
        (match rest with
          | [] => r.2.2
          | _ :: _ => WEvent.wStagger :: r.2.2))

/-- `warmup()` (src/client-pool.js lines 43-91): initialize in batches of 2
with a stagger between batches, throw iff `readyCount === 0` (before the
health-check timer is started), otherwise start the health-check
interval timer.  `initOk id` says whether `entries[id].client
.ensureSession()` succeeds; `now` is the timestamp recorded on success. -/
def warmup (p : ClientPool) (initOk : Nat → Bool) (now : Nat) :
    ClientPool × Except String Unit × List WEvent :=
  let r := warmupGo initOk now (chunks2 p.entries)
  let p1 := { p with entries := r.1 }
  if r.2.1 = 0 then
    (p1, Except.error "[pool] No clients could be initialized", r.2.2)
  else
    ({ p1 with healthCheckTimer := true }, Except.ok (), r.2.2)

/-- The expected warmup timeline over the id-batches: one batch event per
batch, a stagger between consecutive batches, none after the last. -/
def alternatingBatches : List (List Nat) → List WEvent
  | [] => []
  | [b] => [WEvent.wBatch b]
  | b :: rest => WEvent.wBatch b :: WEvent.wStagger :: alternatingBatches rest

/-! ## Health monitor, proactive-refresh pass
(src/client-pool.js lines 217-249) -/

/-- The stale-scan predicate (src/client-pool.js lines 219-226).  The JS
test `e.sessionCreatedAt && now - e.sessionCreatedAt > SESSION_MAX_AGE`
is falsy when the timestamp is `null` — and also for the (unreachable in
practice) timestamp `0`, which JS treats as falsy. -/
def isStale (now : Nat) (e : Entry) : Bool :=
  e.ready && !e.busy && !e.initializing &&
    (match e.sessionCreatedAt with
      | none => false
      | some t => !(t == 0) && decide (SESSION_MAX_AGE < now - t))

/-- Whether one refresh attempt (`resetSession` + `ensureSession`)
succeeds. -/
inductive RefreshOutcome where
  | rOk
  | rFail
deriving Repr, DecidableEq

/-- State of a stale entry while its refresh is in flight (after
`entry.initializing = true; entry.busy = true; entry.client
.resetSession()`, src/client-pool.js lines 234-236). -/
def refreshMid (e : Entry) : Entry :=
  { e with initializing := true, busy := true, client := e.client.resetSession }

/-- State of the entry when the refresh settles: success updates the
timestamp (lines 237-239), failure marks unready and clears it (lines
241-243); the `finally` clears the transient flags in both cases (lines
244-247). -/
def refreshFinish (now : Nat) (o : RefreshOutcome) (e : Entry) : Entry :=
  match o with
  | RefreshOutcome.rOk =>
    { e with sessionCreatedAt := some now, initializing := false, busy := false }
  | RefreshOutcome.rFail =>
    { e with ready := false, sessionCreatedAt := none
             initializing := false, busy := false }

/-- Loop body of the refresh pass for the entry at index `i`
(src/client-pool.js lines 230-248), over the current entry list.
`grabbed i` models an interleaved task having set the entry busy during
an earlier `await` of the pass, between the stale scan and this entry's
turn; the `if (entry.busy) continue` re-check then skips it.  Besides the
updated list, the mid-refresh entry state is returned when the refresh
ran. -/
def refreshStep (now : Nat) (oc : Nat → RefreshOutcome) (grabbed : Nat → Bool)
    (acc : List Entry × List (Nat × Entry)) (i : Nat) :
    List Entry × List (Nat × Entry) :=
  let es := acc.1
  let e0 := es.getD i dEntry
  let e := if grabbed i then { e0 with busy := true } else e0
  if e.busy then
    (updateAt i (fun _ => e) es, acc.2)
  else
    let mid := refreshMid e
    let fin := refreshFinish now (oc i) mid
    (updateAt i (fun _ => fin) es, acc.2 ++ [(i, mid)])

/-- The indices selected by the stale scan (src/client-pool.js lines
219-226): positions of the entries satisfying `isStale` at tick time. -/
def staleIndices (now : Nat) (p : ClientPool) : List Nat :=
  (p.entries.enum.filter (fun x => isStale now x.2)).map (fun x => x.1)

/-- The proactive-refresh pass of `_healthCheck` (src/client-pool.js lines
217-249): scan for stale entries, then process each in order.  Besides the
final pool, the list of in-flight (mid-refresh) entry states is returned. -/
def refreshPass (now : Nat) (oc : Nat → RefreshOutcome) (grabbed : Nat → Bool)
    (p : ClientPool) : ClientPool × List (Nat × Entry) :=
  let r := (staleIndices now p).foldl (refreshStep now oc grabbed) (p.entries, [])
  ({ p with entries := r.1 }, r.2)

/-! ## Browser-launch semaphore (src/meta-client.js lines 9-32) -/

/-- The module-level counter and FIFO waiter list. -/
structure SemState where
  activeBrowsers : Nat
  browserQueue : List Nat
deriving Repr, DecidableEq

def semInit : SemState := ⟨0, []⟩

inductive SemOp where
  /-- `acquireBrowserSlot()` called by a task with identity `wid`. -/
  | acq (wid : Nat)
  /-- `releaseBrowserSlot()`. -/
  | rel
deriving Repr, DecidableEq

inductive SemEv where
  /-- The caller's (or the popped waiter's) promise resolved: it now holds
  a slot. -/
  | granted (wid : Nat)
  /-- The caller was pushed onto `browserQueue`. -/
  | queuedEv (wid : Nat)
  /-- `activeBrowsers--` with an empty queue. -/
  | released
deriving Repr, DecidableEq

/-- `acquireBrowserSlot` / `releaseBrowserSlot`
(src/meta-client.js lines 14-32) as one step function. -/
def semStep (s : SemState) (op : SemOp) : SemState × SemEv :=
  match op with
  | SemOp.acq wid =>
    if s.activeBrowsers < MAX_CONCURRENT_BROWSERS then
      ({ s with activeBrowsers := s.activeBrowsers + 1 }, SemEv.granted wid)
    else
      ({ s with browserQueue := s.browserQueue ++ [wid] }, SemEv.queuedEv wid)
  | SemOp.rel =>
    match s.browserQueue with
    | next :: rest => ({ s with browserQueue := rest }, SemEv.granted next)
    | [] => ({ s with activeBrowsers := s.activeBrowsers - 1 }, SemEv.released)

/-- Run a list of semaphore operations from a state. -/
def semRun (s : SemState) : List SemOp → SemState
  | [] => s
  | op :: ops => semRun (semStep s op).1 ops

/-- The semaphore's inductive invariant: at most 3 slots are held, and the
waiter queue is only ever non-empty while all slots are held. -/
def semInv (s : SemState) : Prop :=
  s.activeBrowsers ≤ MAX_CONCURRENT_BROWSERS ∧
  (s.browserQueue ≠ [] → s.activeBrowsers = MAX_CONCURRENT_BROWSERS)

/-! ## Sample pools used by the witness theorems -/

/-- A two-entry pool with both entries warm (ready, idle). -/
def samplePool : ClientPool :=
  let p := ClientPool.construct 2 PoolOpts.empty
  { p with entries := p.entries.map (fun e =>
      { e with ready := true, sessionCreatedAt := some 1000 }) }

/-- One-entry pool whose entry is ready and busy, with one queued waiter. -/
def busyPoolQ : ClientPool :=
  let p := ClientPool.construct 1 PoolOpts.empty
  { p with
      entries := p.entries.map (fun e =>
        { e with ready := true, busy := true, sessionCreatedAt := some 1000 })
      waitQueue := [⟨41, 120000⟩, ⟨42, 120000⟩] }

/-- Event classifiers used to count actions of one `execute` call. -/
def isReleaseEv : ExecEvent → Bool
  | ExecEvent.evReleased _ => true
  | _ => false

def isFnCallEv : ExecEvent → Bool
  | ExecEvent.evFnCall _ => true
  | _ => false

/-- The pool state `execute` builds in its catch block before releasing,
when the error message matched: entry `i` marked unready with its
timestamp cleared, then its client's session material discarded. -/
def execBadPool (p : ClientPool) (i : Nat) : ClientPool :=
  { p with entries := (updateAt i
      (fun e => { e with client := e.client.resetSession })
      (updateAt i (fun e => { e with ready := false, sessionCreatedAt := none })
        p.entries)) }

/-! ## Helper lemmas about `updateAt` and `findIdx?` -/

theorem updateAt_length {α : Type} (i : Nat) (f : α → α) (l : List α) :
    (updateAt i f l).length = l.length := by
  induction l generalizing i with
  | nil => cases i <;> rfl
  | cons x xs ih =>
    cases i with
    | zero => rfl
    | succ n => simp [updateAt, ih]

theorem updateAt_getD_self {α : Type} (i : Nat) (f : α → α) (l : List α) (d : α)
    (h : i < l.length) : (updateAt i f l).getD i d = f (l.getD i d) := by
  induction l generalizing i with
  | nil => simp at h
  | cons x xs ih =>
    cases i with
    | zero => rfl
    | succ n => simpa [updateAt] using ih n (by simpa using h)

theorem updateAt_getD_ne {α : Type} (i j : Nat) (f : α → α) (l : List α) (d : α)
    (h : j ≠ i) : (updateAt i f l).getD j d = l.getD j d := by
  induction l generalizing i j with
  | nil => cases i <;> rfl
  | cons x xs ih =>
    cases i with
    | zero =>
      cases j with
      | zero => exact absurd rfl h
      | succ m => rfl
    | succ n =>
      cases j with
      | zero => rfl
      | succ m => simpa [updateAt] using ih n m (fun hh => h (by rw [hh]))

theorem findIdx?_some_facts {α : Type} (p : α → Bool) (l : List α) (i : Nat) (d : α)
    (h : l.findIdx? p = some i) :
    i < l.length ∧ p (l.getD i d) = true ∧ ∀ j, j < i → p (l.getD j d) = false := by
  rcases List.findIdx?_eq_some_iff_getElem.mp h with ⟨hlen, hp, hmin⟩
  refine ⟨hlen, ?_, ?_⟩
  · rw [List.getD_eq_getElem?_getD, List.getElem?_eq_getElem hlen]
    simpa using hp
  · intro j hj
    have hjl : j < l.length := Nat.lt_trans hj hlen
    have := hmin j hj
    rw [List.getD_eq_getElem?_getD, List.getElem?_eq_getElem hjl]
    simpa using this

/-- If `acquire` returned index `i` then the scan found the first free
entry at `i`. -/
theorem acquire_acquired_findIdx (p : ClientPool) (t : Option Nat) (w i : Nat)
    (h : (acquire p t w).2 = AcquireResult.acquired i) :
    p.entries.findIdx? isFree = some i := by
  unfold acquire at h
  cases hf : p.entries.findIdx? isFree with
  | some k => simp only [hf] at h; simpa using h
  | none =>
    simp only [hf] at h
    split at h <;> simp at h

/-- In the `acquired` case the state update is exactly: entry `i` marked
busy, everything else untouched. -/
theorem acquire_acquired_state (p : ClientPool) (t : Option Nat) (w i : Nat)
    (h : (acquire p t w).2 = AcquireResult.acquired i) :
    (acquire p t w).1 =
      { p with entries := updateAt i (fun e => { e with busy := true }) p.entries } := by
  have hf := acquire_acquired_findIdx p t w i h
  unfold acquire
  simp only [hf]

/-- Inversion for a handoff: it carries the released index, requires the
entry to be ready, and resolves the head of the wait queue. -/
theorem release_handoff_inv (q : ClientPool) (k w j : Nat)
    (h : (release q k).2 = ReleaseEvent.handoff w j) :
    j = k ∧ (q.entries.getD k dEntry).ready = true ∧
      ∃ tm rest, q.waitQueue = Waiter.mk w tm :: rest := by
  unfold release at h
  split at h
  · next a rest hq =>
      dsimp only at h
      split at h
      · next hready =>
          dsimp only at h
          injection h with h1 h2
          refine ⟨h2.symm, hready, a.timer, rest, ?_⟩
          rw [hq, ← h1]
      · next hready =>
          dsimp only at h
          exact absurd h (by simp)
  · next hq =>
      dsimp only at h
      exact absurd h (by simp)

/-! ## Claim theorems -/

/-- C4: when at least one Resource is `ready && !busy`, `acquire` returns
the one with the lowest index among those (the returned index is free and
every smaller index is not), marks it busy, and returns without
suspending (the wait queue is untouched); the returned Resource was not
busy before the call, and a second `acquire` on the resulting state can
never return the same index before a release (mutual exclusion). -/
theorem C4_acquire_first_free_mutex (p : ClientPool) (t t2 : Option Nat)
    (w w2 i : Nat) (h : (acquire p t w).2 = AcquireResult.acquired i) :
    (i < p.entries.length ∧
      (p.entries.getD i dEntry).ready = true ∧
      (p.entries.getD i dEntry).busy = false ∧
      (∀ j, j < i → isFree (p.entries.getD j dEntry) = false)) ∧
    (acquire p t w).1.entries =
      updateAt i (fun e => { e with busy := true }) p.entries ∧
    ((acquire p t w).1.entries.getD i dEntry).busy = true ∧
    (acquire p t w).1.waitQueue = p.waitQueue ∧
    (∀ j, (acquire (acquire p t w).1 t2 w2).2 = AcquireResult.acquired j → j ≠ i) := by
  have hf := acquire_acquired_findIdx p t w i h
  obtain ⟨hlen, hfree, hmin⟩ := findIdx?_some_facts isFree p.entries i dEntry hf
  have hrb : (p.entries.getD i dEntry).ready = true ∧
      (p.entries.getD i dEntry).busy = false := by
    have := hfree
    unfold isFree at this
    rw [Bool.and_eq_true, Bool.not_eq_true'] at this
    exact this
  have hstate := acquire_acquired_state p t w i h
  have hEnt : (acquire p t w).1.entries =
      updateAt i (fun e => { e with busy := true }) p.entries := by rw [hstate]
  have hbusyAfter : ((updateAt i (fun e => { e with busy := true })
      p.entries).getD i dEntry).busy = true := by
    rw [updateAt_getD_self i (fun e => { e with busy := true }) p.entries dEntry hlen]
  refine ⟨⟨hlen, hrb.1, hrb.2, hmin⟩, hEnt, ?_, ?_, ?_⟩
  · rw [hEnt]
    exact hbusyAfter
  · rw [hstate]
  · intro j hj hji
    rw [hji] at hj
    have hf2 := acquire_acquired_findIdx _ t2 w2 i hj
    obtain ⟨hlen2, hfree2, -⟩ := findIdx?_some_facts isFree _ i dEntry hf2
    rw [hEnt] at hfree2
    unfold isFree at hfree2
    rw [hbusyAfter] at hfree2
    simp at hfree2

/-- Witness for C4 on a concrete pool: both entries of `samplePool` are
ready and idle, `acquire` returns index 0. -/
theorem C4_acquire_first_free_mutex_witness :
    (acquire samplePool none 7).2 = AcquireResult.acquired 0 ∧
    ((0 < samplePool.entries.length ∧
      (samplePool.entries.getD 0 dEntry).ready = true ∧
      (samplePool.entries.getD 0 dEntry).busy = false ∧
      (∀ j, j < 0 → isFree (samplePool.entries.getD j dEntry) = false)) ∧
    (acquire samplePool none 7).1.entries =
      updateAt 0 (fun e => { e with busy := true }) samplePool.entries ∧
    ((acquire samplePool none 7).1.entries.getD 0 dEntry).busy = true ∧
    (acquire samplePool none 7).1.waitQueue = samplePool.waitQueue ∧
    (∀ j, (acquire (acquire samplePool none 7).1 none 8).2 =
        AcquireResult.acquired j → j ≠ 0)) :=
  ⟨by decide, C4_acquire_first_free_mutex samplePool none none 7 8 0 (by decide)⟩

/-- C3: `acquire` fails with NoHealthyClients exactly when the free-entry
scan found nothing and zero entries are ready; in that case the pool
state is completely unchanged (no wait-queue entry, no counter bump, so
no timer was armed).  When the scan fails but some entry is ready, the
call is enqueued at the back of the FIFO queue with a timer armed for the
effective timeout.  A firing timer whose waiter is still queued removes
exactly that entry and rejects with QueueTimeout.  In the unified step
machine, the only operation that can resolve a queued waiter with a
Resource is a release (the handoff event arises from `opRelease` alone). -/
theorem C3_noHealthy_enqueue_timeout (p : ClientPool) (t : Option Nat) (w : Nat) :
    ((acquire p t w).2 = AcquireResult.noHealthy ↔
      p.entries.findIdx? isFree = none ∧
      (p.entries.filter (fun e => e.ready)).length = 0) ∧
    ((acquire p t w).2 = AcquireResult.noHealthy → (acquire p t w).1 = p) ∧
    (p.entries.findIdx? isFree = none →
      (p.entries.filter (fun e => e.ready)).length ≠ 0 →
      (acquire p t w).2 = AcquireResult.enqueued w (jsOrNat t p.queueTimeout) ∧
      (acquire p t w).1.waitQueue =
        p.waitQueue ++ [⟨w, jsOrNat t p.queueTimeout⟩]) ∧
    (∀ q : ClientPool, ∀ idx : Nat,
      q.waitQueue.findIdx? (fun x => x.wid == w) = some idx →
      (timerFire q w).1.waitQueue = q.waitQueue.eraseIdx idx ∧
      (timerFire q w).2 = true) ∧
    (∀ (q : ClientPool) (op : PoolOp) (wid idx : Nat),
      (poolStep q op).2 = PoolEv.evHandoff wid idx → op = PoolOp.opRelease idx) := by
  refine ⟨?_, ?_, ?_, ?_, ?_⟩
  · constructor
    · intro h
      unfold acquire at h
      cases hf : p.entries.findIdx? isFree with
      | some k => simp [hf] at h
      | none =>
        refine ⟨rfl, ?_⟩
        simp only [hf] at h
        by_cases hr : (p.entries.filter (fun e => e.ready)).length = 0
        · exact hr
        · simp [hr] at h
    · rintro ⟨hf, hr⟩
      unfold acquire
      simp [hf, hr]
  · intro h
    unfold acquire at h ⊢
    cases hf : p.entries.findIdx? isFree with
    | some k => simp [hf] at h
    | none =>
      simp only [hf] at h ⊢
      by_cases hr : (p.entries.filter (fun e => e.ready)).length = 0
      · simp [hr]
      · simp [hr] at h
  · intro hf hr
    unfold acquire
    simp [hf, hr]
  · intro q idx hidx
    unfold timerFire
    simp [hidx]
  · intro q op wid idx h
    cases op with
    | opAcquire t2 w2 =>
      simp only [poolStep] at h
      split at h <;> simp at h
    | opRelease k =>
      simp only [poolStep] at h
      split at h
      · next w3 j3 heq =>
          simp only [PoolEv.evHandoff.injEq] at h
          obtain ⟨hjk, -, -⟩ := release_handoff_inv q k w3 j3 heq
          rw [h.2.symm, ← hjk]
      · next j3 heq => simp at h
    | opTimer w2 =>
      simp only [poolStep] at h
      split at h <;> simp at h

/-- Witness for C3 on concrete pools: an all-unready pool rejects with
NoHealthyClients and is left unchanged; `busyPoolQ`'s ready-but-busy
entry sends the caller to the queue; a queued waiter's firing timer
removes it. -/
theorem C3_noHealthy_enqueue_timeout_witness :
    (ClientPool.construct 2 PoolOpts.empty).entries.findIdx? isFree = none ∧
    ((ClientPool.construct 2 PoolOpts.empty).entries.filter
      (fun e => e.ready)).length = 0 ∧
    (acquire (ClientPool.construct 2 PoolOpts.empty) none 7).1 =
      ClientPool.construct 2 PoolOpts.empty ∧
    busyPoolQ.waitQueue.findIdx? (fun x => x.wid == 41) = some 0 ∧
    (timerFire busyPoolQ 41).1.waitQueue = busyPoolQ.waitQueue.eraseIdx 0 := by
  refine ⟨by decide, by decide, ?_, by decide, ?_⟩
  · exact (C3_noHealthy_enqueue_timeout (ClientPool.construct 2 PoolOpts.empty)
      none 7).2.1 (by decide)
  · exact ((C3_noHealthy_enqueue_timeout busyPoolQ none 41).2.2.2.1
      busyPoolQ 0 (by decide)).1

/-- When the released entry is not ready, `release` never hands it to a
waiter: the event is `idle`, the entry is marked not busy, and the wait
queue is untouched. -/
theorem release_not_ready (q : ClientPool) (k : Nat)
    (h : (q.entries.getD k dEntry).ready = false) :
    (release q k).2 = ReleaseEvent.idle k ∧
    (release q k).1.entries =
      updateAt k (fun e => { e with busy := false }) q.entries ∧
    (release q k).1.waitQueue = q.waitQueue := by
  have h' : (q.entries[k]?.getD dEntry).ready = false := by
    rw [← List.getD_eq_getElem?_getD]; exact h
  unfold release
  rcases hq : q.waitQueue with _ | ⟨a, rest⟩
  · exact ⟨rfl, rfl, rfl⟩
  · dsimp only
    rw [if_neg (by simp [h'])]
    exact ⟨rfl, rfl, rfl⟩

/-- C1: when the wait queue is non-empty and the released entry is ready,
`release` pops the oldest (head) waiter, cancels its timer (the waiter
leaves the queue, so a later firing of its timer finds nothing), and
resolves it with the entry while the entry list — in particular its busy
flag — is left untouched, so the entry is never observable as
ready-and-idle during the handoff; otherwise the entry is marked
`busy = false`.  FIFO consequence: the resolved waiter is the head, so a
waiter sitting behind it is never the one resolved; and `acquire` only
ever appends to the back of the queue, so a waiter enqueued strictly
earlier stays strictly ahead. -/
theorem C1_release_handoff_fifo (p : ClientPool) (i : Nat) :
    (∀ a rest, p.waitQueue = a :: rest →
      (p.entries.getD i dEntry).ready = true →
      (release p i).2 = ReleaseEvent.handoff a.wid i ∧
      (release p i).1.waitQueue = rest ∧
      (release p i).1.entries = p.entries) ∧
    ((p.waitQueue = [] ∨ (p.entries.getD i dEntry).ready = false) →
      (release p i).2 = ReleaseEvent.idle i ∧
      (release p i).1.entries =
        updateAt i (fun e => { e with busy := false }) p.entries ∧
      (release p i).1.waitQueue = p.waitQueue) ∧
    (∀ a rest, p.waitQueue = a :: rest →
      (p.entries.getD i dEntry).ready = true →
      a.wid ∉ rest.map Waiter.wid →
      (timerFire (release p i).1 a.wid).2 = false) ∧
    (∀ a rest b, p.waitQueue = a :: rest → b ∈ rest → b.wid ≠ a.wid →
      (release p i).2 ≠ ReleaseEvent.handoff b.wid i) ∧
    (∀ (t : Option Nat) (w : Nat),
      (acquire p t w).1.waitQueue = p.waitQueue ∨
      (acquire p t w).1.waitQueue =
        p.waitQueue ++ [⟨w, jsOrNat t p.queueTimeout⟩]) := by
  have hHandoff : ∀ a rest, p.waitQueue = a :: rest →
      (p.entries.getD i dEntry).ready = true →
      (release p i).2 = ReleaseEvent.handoff a.wid i ∧
      (release p i).1.waitQueue = rest ∧
      (release p i).1.entries = p.entries := by
    intro a rest hq hready
    have hready' : (p.entries[i]?.getD dEntry).ready = true := by
      rw [← List.getD_eq_getElem?_getD]; exact hready
    unfold release
    rw [hq]
    dsimp only
    rw [if_pos (by simp [hready'])]
    exact ⟨rfl, rfl, rfl⟩
  refine ⟨hHandoff, ?_, ?_, ?_, ?_⟩
  · rintro (hq | hready)
    · unfold release
      rw [hq]
      exact ⟨rfl, rfl, rfl⟩
    · exact release_not_ready p i hready
  · intro a rest hq hready hnot
    obtain ⟨-, hwq, -⟩ := hHandoff a rest hq hready
    unfold timerFire
    rw [hwq]
    have : rest.findIdx? (fun w => w.wid == a.wid) = none := by
      rw [List.findIdx?_eq_none_iff]
      intro x hx
      simp only [beq_eq_false_iff_ne]
      intro hxw
      exact hnot (by simpa [hxw] using List.mem_map_of_mem Waiter.wid hx)
    rw [this]
  · intro a rest b hq hb hbw habs
    obtain ⟨-, -, tm, rest2, hq2⟩ := release_handoff_inv p i b.wid i habs
    rw [hq] at hq2
    injection hq2 with h1 h2
    exact hbw (by rw [h1])
  · intro t w
    unfold acquire
    cases hf : p.entries.findIdx? isFree with
    | some k => exact Or.inl rfl
    | none =>
      dsimp only
      by_cases hr : (p.entries.filter (fun e => e.ready)).length = 0
      · rw [if_pos hr]
        exact Or.inl rfl
      · rw [if_neg hr]
        exact Or.inr rfl

/-- Witness for C1: releasing `busyPoolQ`'s ready-and-busy entry 0 hands it
to the oldest waiter 41, leaving the entry list untouched. -/
theorem C1_release_handoff_fifo_witness :
    busyPoolQ.waitQueue = ⟨41, 120000⟩ :: [⟨42, 120000⟩] ∧
    (busyPoolQ.entries.getD 0 dEntry).ready = true ∧
    ((release busyPoolQ 0).2 = ReleaseEvent.handoff 41 0 ∧
      (release busyPoolQ 0).1.waitQueue = [⟨42, 120000⟩] ∧
      (release busyPoolQ 0).1.entries = busyPoolQ.entries) :=
  ⟨by decide, by decide,
    (C1_release_handoff_fifo busyPoolQ 0).1 ⟨41, 120000⟩ [⟨42, 120000⟩]
      (by decide) (by decide)⟩

/-- C2: on every outcome of the operation, `execute` performs exactly one
release of the acquired entry, as its final action; the operation is
invoked exactly once (no retry); a normal return is passed through, and a
thrown error is rethrown with its message unchanged. -/
theorem C2_execute_releases_once_no_retry {α : Type} (p : ClientPool) (i : Nat)
    (outcome : FnOutcome α) :
    ((executeAfterAcquire p i outcome).2.2.filter isReleaseEv).length = 1 ∧
    (∃ ev, (executeAfterAcquire p i outcome).2.2.getLast? =
      some (ExecEvent.evReleased ev)) ∧
    ((executeAfterAcquire p i outcome).2.2.filter isFnCallEv).length = 1 ∧
    (∀ v, outcome = FnOutcome.ok v →
      (executeAfterAcquire p i outcome).2.1 = ExecResult.success v) ∧
    (∀ m, outcome = FnOutcome.err m →
      (executeAfterAcquire p i outcome).2.1 = ExecResult.failure m) := by
  cases outcome with
  | ok v =>
    refine ⟨?_, ?_, ?_, ?_, ?_⟩ <;>
      simp [executeAfterAcquire, isReleaseEv, isFnCallEv, List.getLast?]
  | err m =>
    by_cases hm : isSessionErrorMsg m = true
    · refine ⟨?_, ?_, ?_, ?_, ?_⟩ <;>
        simp [executeAfterAcquire, hm, isReleaseEv, isFnCallEv, List.getLast?]
    · rw [Bool.not_eq_true] at hm
      refine ⟨?_, ?_, ?_, ?_, ?_⟩ <;>
        simp [executeAfterAcquire, hm, isReleaseEv, isFnCallEv, List.getLast?]

/-- Witness for C2 at a concrete throwing operation. -/
theorem C2_execute_releases_once_no_retry_witness :
    ((executeAfterAcquire (α := Nat) samplePool 0
        (FnOutcome.err "boom")).2.2.filter isReleaseEv).length = 1 ∧
    (∃ ev, (executeAfterAcquire (α := Nat) samplePool 0
      (FnOutcome.err "boom")).2.2.getLast? = some (ExecEvent.evReleased ev)) ∧
    ((executeAfterAcquire (α := Nat) samplePool 0
        (FnOutcome.err "boom")).2.2.filter isFnCallEv).length = 1 ∧
    (∀ v : Nat, (FnOutcome.err "boom" : FnOutcome Nat) = FnOutcome.ok v →
      (executeAfterAcquire (α := Nat) samplePool 0
        (FnOutcome.err "boom")).2.1 = ExecResult.success v) ∧
    (∀ m, (FnOutcome.err "boom" : FnOutcome Nat) = FnOutcome.err m →
      (executeAfterAcquire (α := Nat) samplePool 0
        (FnOutcome.err "boom")).2.1 = ExecResult.failure m) :=
  C2_execute_releases_once_no_retry samplePool 0 (FnOutcome.err "boom")

/-- C5: when the thrown message matches an auth/session-exhaustion marker,
`execute` sets `ready = false`, clears `sessionCreatedAt`, and resets the
client's session material, all strictly before the release (the event
trace is exactly fnCall, markUnhealthy, resetSession, released); the
release therefore observes `ready = false`, emits `idle` rather than a
handoff (no waiter receives this entry), leaves the queue untouched, and
the final entry is not ready, timestampless, not busy, with its session
material cleared; the original error is rethrown. -/
theorem C5_session_error_marked_before_release (p : ClientPool) (i : Nat)
    (msg : String) (hm : isSessionErrorMsg msg = true)
    (hi : i < p.entries.length) :
    (executeAfterAcquire (α := Unit) p i (FnOutcome.err msg)).2.2 =
      [ExecEvent.evFnCall i, ExecEvent.evMarkUnhealthy i,
        ExecEvent.evResetSession i, ExecEvent.evReleased (ReleaseEvent.idle i)] ∧
    (((executeAfterAcquire (α := Unit) p i
        (FnOutcome.err msg)).1.entries.getD i dEntry).ready = false ∧
      ((executeAfterAcquire (α := Unit) p i
        (FnOutcome.err msg)).1.entries.getD i dEntry).sessionCreatedAt = none ∧
      ((executeAfterAcquire (α := Unit) p i
        (FnOutcome.err msg)).1.entries.getD i dEntry).busy = false ∧
      ((executeAfterAcquire (α := Unit) p i
        (FnOutcome.err msg)).1.entries.getD i dEntry).client.cookies = none ∧
      ((executeAfterAcquire (α := Unit) p i
        (FnOutcome.err msg)).1.entries.getD i dEntry).client.accessToken = none) ∧
    (executeAfterAcquire (α := Unit) p i (FnOutcome.err msg)).1.waitQueue =
      p.waitQueue ∧
    (executeAfterAcquire (α := Unit) p i (FnOutcome.err msg)).2.1 =
      ExecResult.failure msg := by
  have key : executeAfterAcquire (α := Unit) p i (FnOutcome.err msg) =
      ((release (execBadPool p i) i).1, ExecResult.failure msg,
        [ExecEvent.evFnCall i, ExecEvent.evMarkUnhealthy i,
          ExecEvent.evResetSession i,
          ExecEvent.evReleased (release (execBadPool p i) i).2]) := by
    simp [executeAfterAcquire, execBadPool, hm]
  have hready2 : ((execBadPool p i).entries.getD i dEntry).ready = false := by
    unfold execBadPool
    dsimp only
    rw [updateAt_getD_self _ _ _ _ (by rw [updateAt_length]; exact hi)]
    rw [updateAt_getD_self _ _ _ _ hi]
  obtain ⟨hev, hent, hwq⟩ := release_not_ready (execBadPool p i) i hready2
  have hfin : ((release (execBadPool p i) i).1.entries.getD i dEntry) =
      { (p.entries.getD i dEntry) with
          ready := false
          sessionCreatedAt := none
          busy := false
          client := ((p.entries.getD i dEntry).client).resetSession } := by
    rw [hent]
    unfold execBadPool
    dsimp only
    rw [updateAt_getD_self _ _ _ _
      (by rw [updateAt_length, updateAt_length]; exact hi)]
    rw [updateAt_getD_self _ _ _ _ (by rw [updateAt_length]; exact hi)]
    rw [updateAt_getD_self _ _ _ _ hi]
  refine ⟨?_, ⟨?_, ?_, ?_, ?_, ?_⟩, ?_, ?_⟩
  · rw [key]
    dsimp only
    rw [hev]
  · rw [key]
    dsimp only
    rw [hfin]
  · rw [key]
    dsimp only
    rw [hfin]
  · rw [key]
    dsimp only
    rw [hfin]
  · rw [key]
    dsimp only
    rw [hfin]
    rfl
  · rw [key]
    dsimp only
    rw [hfin]
    rfl
  · rw [key]
    dsimp only
    rw [hwq]
    rfl
  · rw [key]

/-- Witness for C5: a 403 error on `samplePool`'s entry 0. -/
theorem C5_session_error_marked_before_release_witness :
    isSessionErrorMsg "HTTP 403 Forbidden" = true ∧
    0 < samplePool.entries.length ∧
    (executeAfterAcquire (α := Unit) samplePool 0
        (FnOutcome.err "HTTP 403 Forbidden")).2.2 =
      [ExecEvent.evFnCall 0, ExecEvent.evMarkUnhealthy 0,
        ExecEvent.evResetSession 0, ExecEvent.evReleased (ReleaseEvent.idle 0)] :=
  ⟨by decide, by decide,
    (C5_session_error_marked_before_release samplePool 0 "HTTP 403 Forbidden"
      (by decide) (by decide)).1⟩

/-! ## Warmup lemmas (C6) -/

theorem chunks2_flatten {α : Type} (l : List α) : (chunks2 l).flatten = l := by
  induction l using chunks2.induct with
  | case1 => rfl
  | case2 a => rfl
  | case3 a b rest ih => simp [chunks2, ih]

theorem chunks2_shape {α : Type} (l : List α) :
    ∀ c ∈ chunks2 l, c ≠ [] ∧ c.length ≤ WARMUP_BATCH_SIZE := by
  induction l using chunks2.induct with
  | case1 => intro c hc; simp [chunks2] at hc
  | case2 a =>
    intro c hc
    simp [chunks2] at hc
    subst hc
    exact ⟨by simp, by simp [WARMUP_BATCH_SIZE]⟩
  | case3 a b rest ih =>
    intro c hc
    simp only [chunks2, List.mem_cons] at hc
    rcases hc with hc | hc
    · subst hc
      exact ⟨by simp, by simp [WARMUP_BATCH_SIZE]⟩
    · exact ih c hc

theorem chunks2_full_but_last {α : Type} (l : List α) :
    ∀ c ∈ (chunks2 l).dropLast, c.length = WARMUP_BATCH_SIZE := by
  induction l using chunks2.induct with
  | case1 => intro c hc; simp [chunks2] at hc
  | case2 a => intro c hc; simp [chunks2] at hc
  | case3 a b rest ih =>
    intro c hc
    rcases hr : chunks2 rest with _ | ⟨c2, cs⟩
    · simp [chunks2, hr] at hc
    · rw [show chunks2 (a :: b :: rest) = [a, b] :: chunks2 rest from rfl,
        hr, List.dropLast_cons₂, List.mem_cons] at hc
      rcases hc with hc | hc
      · subst hc; rfl
      · exact ih c (by rw [hr]; exact hc)

theorem warmupGo_entries (initOk : Nat → Bool) (now : Nat)
    (bs : List (List Entry)) :
    (warmupGo initOk now bs).1 = bs.flatten.map (warmEntry initOk now) := by
  induction bs with
  | nil => rfl
  | cons b rest ih => simp [warmupGo, ih]

theorem warmupGo_count (initOk : Nat → Bool) (now : Nat)
    (bs : List (List Entry)) :
    (warmupGo initOk now bs).2.1 =
      (bs.flatten.filter (fun e => initOk e.id)).length := by
  induction bs with
  | nil => rfl
  | cons b rest ih => simp [warmupGo, ih, List.filter_append]

theorem warmupGo_events (initOk : Nat → Bool) (now : Nat)
    (bs : List (List Entry)) :
    (warmupGo initOk now bs).2.2 =
      alternatingBatches (bs.map (fun b => b.map Entry.id)) := by
  induction bs with
  | nil => rfl
  | cons b rest ih =>
    cases rest with
    | nil => rfl
    | cons b2 r2 =>
      show WEvent.wBatch (b.map Entry.id) ::
          WEvent.wStagger :: (warmupGo initOk now (b2 :: r2)).2.2 = _
      rw [ih]
      rfl

theorem warmEntry_ready (initOk : Nat → Bool) (now : Nat) (e : Entry) :
    (warmEntry initOk now e).ready = initOk e.id ∧
    (warmEntry initOk now e).id = e.id := by
  unfold warmEntry
  by_cases h : initOk e.id = true
  · rw [if_pos h, h]; exact ⟨rfl, rfl⟩
  · rw [Bool.not_eq_true] at h
    rw [if_neg (by simp [h]), h]; exact ⟨rfl, rfl⟩

theorem alternatingBatches_shape (bs : List (List Nat)) (h : bs ≠ []) :
    ((alternatingBatches bs).filter
      (fun e => e == WEvent.wStagger)).length + 1 = bs.length ∧
    (∃ b, (alternatingBatches bs).getLast? = some (WEvent.wBatch b)) := by
  induction bs with
  | nil => exact absurd rfl h
  | cons b rest ih =>
    cases rest with
    | nil => exact ⟨rfl, b, rfl⟩
    | cons b2 r2 =>
      obtain ⟨ih1, b3, ih2⟩ := ih (by simp)
      constructor
      · have hstep : (alternatingBatches (b :: b2 :: r2)).filter
            (fun e => e == WEvent.wStagger) =
            WEvent.wStagger :: ((alternatingBatches (b2 :: r2)).filter
              (fun e => e == WEvent.wStagger)) := by
          show ((WEvent.wBatch b :: WEvent.wStagger ::
            alternatingBatches (b2 :: r2)).filter
              (fun e => e == WEvent.wStagger)) = _
          simp [List.filter_cons]
        rw [hstep]
        simp only [List.length_cons] at ih1 ⊢
        omega
      · refine ⟨b3, ?_⟩
        show (WEvent.wBatch b :: WEvent.wStagger ::
          alternatingBatches (b2 :: r2)).getLast? = _
        rw [List.getLast?_cons_cons]
        cases hab : alternatingBatches (b2 :: r2) with
        | nil => rw [hab] at ih2; simp at ih2
        | cons e es =>
          rw [hab] at ih2
          rw [List.getLast?_cons_cons]
          exact ih2

theorem warmEntry_ready_eq (initOk : Nat → Bool) (now : Nat) (e : Entry) :
    (warmEntry initOk now e).ready = initOk e.id := by
  unfold warmEntry
  by_cases h : initOk e.id = true
  · rw [if_pos h, h]
  · rw [Bool.not_eq_true] at h
    rw [if_neg (by simp [h]), h]

theorem chunks2_ne_nil {α : Type} (l : List α) (h : l ≠ []) : chunks2 l ≠ [] := by
  match l with
  | [] => exact absurd rfl h
  | [a] => simp [chunks2]
  | a :: b :: rest => simp [chunks2]

/-- C6: warmup processes the entry list as the in-order chunks of the fixed
batch size 2 (the chunks partition the list in index order; every batch is
non-empty of size ≤ 2, and every batch before the last is full); one
stagger delay separates consecutive batches and none follows the last
(the timeline is the strict alternation, there are `batches - 1` staggers,
and the last event is a batch); each entry's outcome depends only on its
own initialization result, so one failure leaves that entry not-ready
without failing its batch; warmup throws the fatal error exactly when no
entry initialized successfully; and the health-check timer is started
exactly on the non-fatal path. -/
theorem C6_warmup_batches_stagger_fatal (p : ClientPool) (initOk : Nat → Bool)
    (now : Nat) :
    ((warmup p initOk now).1.entries = p.entries.map (warmEntry initOk now)) ∧
    (∀ k, k < p.entries.length →
      ((warmup p initOk now).1.entries.getD k dEntry).ready =
        initOk ((p.entries.getD k dEntry).id)) ∧
    ((warmup p initOk now).2.2 =
      alternatingBatches ((chunks2 p.entries).map (fun b => b.map Entry.id))) ∧
    ((chunks2 p.entries).flatten = p.entries) ∧
    (∀ c ∈ chunks2 p.entries, c ≠ [] ∧ c.length ≤ WARMUP_BATCH_SIZE) ∧
    (∀ c ∈ (chunks2 p.entries).dropLast, c.length = WARMUP_BATCH_SIZE) ∧
    (p.entries ≠ [] →
      ((warmup p initOk now).2.2.filter
        (fun e => e == WEvent.wStagger)).length + 1 =
          (chunks2 p.entries).length ∧
      ∃ ids, (warmup p initOk now).2.2.getLast? = some (WEvent.wBatch ids)) ∧
    ((warmup p initOk now).2.1 =
        Except.error "[pool] No clients could be initialized" ↔
      ∀ e ∈ p.entries, initOk e.id = false) ∧
    ((warmup p initOk now).2.1 = Except.ok () →
      (warmup p initOk now).1.healthCheckTimer = true) ∧
    ((warmup p initOk now).2.1 ≠ Except.ok () →
      (warmup p initOk now).1.healthCheckTimer = p.healthCheckTimer) := by
  have hr := warmupGo_entries initOk now (chunks2 p.entries)
  rw [chunks2_flatten] at hr
  have hc := warmupGo_count initOk now (chunks2 p.entries)
  rw [chunks2_flatten] at hc
  have hev := warmupGo_events initOk now (chunks2 p.entries)
  have key : warmup p initOk now =
      (if (p.entries.filter (fun e => initOk e.id)).length = 0 then
        ({ p with entries := p.entries.map (warmEntry initOk now) },
          Except.error "[pool] No clients could be initialized",
          alternatingBatches ((chunks2 p.entries).map (fun b => b.map Entry.id)))
      else
        ({ p with
            entries := p.entries.map (warmEntry initOk now)
            healthCheckTimer := true },
          Except.ok (),
          alternatingBatches ((chunks2 p.entries).map
            (fun b => b.map Entry.id)))) := by
    unfold warmup
    dsimp only
    rw [hr, hc, hev]
  have hE : (warmup p initOk now).1.entries =
      p.entries.map (warmEntry initOk now) := by
    rw [key]
    by_cases h0 : (p.entries.filter (fun e => initOk e.id)).length = 0
    · rw [if_pos h0]
    · rw [if_neg h0]
  refine ⟨hE, ?_, ?_, chunks2_flatten p.entries, chunks2_shape p.entries,
    chunks2_full_but_last p.entries, ?_, ?_, ?_, ?_⟩
  · intro k hk
    rw [hE, List.getD_eq_getElem?_getD, List.getElem?_map,
      List.getElem?_eq_getElem hk]
    rw [List.getD_eq_getElem?_getD, List.getElem?_eq_getElem hk]
    simp only [Option.map_some', Option.getD_some]
    exact warmEntry_ready_eq initOk now _
  · rw [key]
    by_cases h0 : (p.entries.filter (fun e => initOk e.id)).length = 0
    · rw [if_pos h0]
    · rw [if_neg h0]
  · intro hne
    have hbs : (chunks2 p.entries).map (fun b => b.map Entry.id) ≠ [] := by
      intro habs
      exact chunks2_ne_nil p.entries hne (List.map_eq_nil_iff.mp habs)
    obtain ⟨h1, b3, h2⟩ := alternatingBatches_shape _ hbs
    have hEv2 : (warmup p initOk now).2.2 =
        alternatingBatches ((chunks2 p.entries).map (fun b => b.map Entry.id)) := by
      rw [key]
      by_cases h0 : (p.entries.filter (fun e => initOk e.id)).length = 0
      · rw [if_pos h0]
      · rw [if_neg h0]
    rw [hEv2]
    refine ⟨?_, b3, h2⟩
    rw [h1, List.length_map]
  · have hmain : (warmup p initOk now).2.1 =
        Except.error "[pool] No clients could be initialized" ↔
        (p.entries.filter (fun e => initOk e.id)).length = 0 := by
      by_cases h0 : (p.entries.filter (fun e => initOk e.id)).length = 0
      · rw [key, if_pos h0]
        simp [h0]
      · rw [key, if_neg h0]
        simp [h0]
    rw [hmain, List.length_eq_zero, List.filter_eq_nil_iff]
    simp
  · intro hok
    by_cases h0 : (p.entries.filter (fun e => initOk e.id)).length = 0
    · rw [key, if_pos h0] at hok
      simp at hok
    · rw [key, if_neg h0]
  · intro hok
    by_cases h0 : (p.entries.filter (fun e => initOk e.id)).length = 0
    · rw [key, if_pos h0]
    · rw [key, if_neg h0] at hok
      simp at hok

/-- Witness for C6: a 3-entry pool where only entry 1 initializes. -/
theorem C6_warmup_batches_stagger_fatal_witness :
    (ClientPool.construct 3 PoolOpts.empty).entries ≠ [] ∧
    0 < (ClientPool.construct 3 PoolOpts.empty).entries.length ∧
    (((warmup (ClientPool.construct 3 PoolOpts.empty) (fun i => i == 1)
        5).2.2.filter (fun e => e == WEvent.wStagger)).length + 1 =
      (chunks2 (ClientPool.construct 3 PoolOpts.empty).entries).length ∧
      ∃ ids, (warmup (ClientPool.construct 3 PoolOpts.empty) (fun i => i == 1)
        5).2.2.getLast? = some (WEvent.wBatch ids)) ∧
    ((warmup (ClientPool.construct 3 PoolOpts.empty) (fun i => i == 1)
        5).1.entries.getD 0 dEntry).ready =
      (((ClientPool.construct 3 PoolOpts.empty).entries.getD 0 dEntry).id == 1) :=
  ⟨by decide, by decide,
    (C6_warmup_batches_stagger_fatal (ClientPool.construct 3 PoolOpts.empty)
      (fun i => i == 1) 5).2.2.2.2.2.2.1 (by decide),
    (C6_warmup_batches_stagger_fatal (ClientPool.construct 3 PoolOpts.empty)
      (fun i => i == 1) 5).2.1 0 (by decide)⟩

/-! ## Health-monitor refresh lemmas (C7) -/

theorem updateAt_getD_id {α : Type} (i : Nat) (l : List α) (d : α) :
    updateAt i (fun _ => l.getD i d) l = l := by
  induction l generalizing i with
  | nil => cases i <;> rfl
  | cons x xs ih =>
    cases i with
    | zero => rfl
    | succ n =>
      show x :: updateAt n (fun _ => xs.getD n d) xs = x :: xs
      rw [ih n]

/-- `acquire` can never return an entry whose busy flag is set. -/
theorem acquire_skips_busy (q : ClientPool) (t : Option Nat) (w i : Nat)
    (hb : (q.entries.getD i dEntry).busy = true) :
    (acquire q t w).2 ≠ AcquireResult.acquired i := by
  intro h
  have hf := acquire_acquired_findIdx q t w i h
  obtain ⟨-, hfree, -⟩ := findIdx?_some_facts isFree q.entries i dEntry hf
  unfold isFree at hfree
  rw [hb] at hfree
  simp at hfree

theorem mem_staleIndices (now : Nat) (p : ClientPool) (i : Nat) :
    i ∈ staleIndices now p ↔
      ∃ h : i < p.entries.length,
        isStale now (p.entries.getD i dEntry) = true := by
  unfold staleIndices
  rw [List.mem_map]
  constructor
  · rintro ⟨⟨j, e⟩, hmem, rfl⟩
    rw [List.mem_filter] at hmem
    obtain ⟨henum, hstale⟩ := hmem
    rw [List.mk_mem_enum_iff_getElem?] at henum
    have hlen : j < p.entries.length := by
      by_contra hc
      rw [List.getElem?_eq_none (Nat.le_of_not_lt hc)] at henum
      simp at henum
    refine ⟨hlen, ?_⟩
    rw [List.getD_eq_getElem?_getD, henum]
    simpa using hstale
  · rintro ⟨h, hstale⟩
    refine ⟨(i, p.entries.getD i dEntry), ?_, rfl⟩
    rw [List.mem_filter]
    constructor
    · rw [List.mk_mem_enum_iff_getElem?]
      simp [List.getD_eq_getElem?_getD, List.getElem?_eq_getElem h]
    · simpa using hstale

theorem refreshStep_mids (now : Nat) (oc : Nat → RefreshOutcome)
    (grabbed : Nat → Bool) (acc : List Entry × List (Nat × Entry)) (i : Nat) :
    (refreshStep now oc grabbed acc i).2 = acc.2 ∨
    ∃ e, (refreshStep now oc grabbed acc i).2 = acc.2 ++ [(i, refreshMid e)] := by
  unfold refreshStep
  dsimp only
  split <;> split <;>
    first
      | exact Or.inl rfl
      | exact Or.inr ⟨_, rfl⟩

theorem foldl_refreshStep_mids (now : Nat) (oc : Nat → RefreshOutcome)
    (grabbed : Nat → Bool) (idxs : List Nat)
    (acc : List Entry × List (Nat × Entry))
    (h : ∀ im ∈ acc.2, im.2.busy = true ∧ im.2.initializing = true) :
    ∀ im ∈ (idxs.foldl (refreshStep now oc grabbed) acc).2,
      im.2.busy = true ∧ im.2.initializing = true := by
  induction idxs generalizing acc with
  | nil => exact h
  | cons j rest ih =>
    intro im him
    rw [List.foldl_cons] at him
    refine ih (refreshStep now oc grabbed acc j) ?_ im him
    intro im2 him2
    rcases refreshStep_mids now oc grabbed acc j with hm | ⟨e, hm⟩
    · rw [hm] at him2
      exact h im2 him2
    · rw [hm] at him2
      rw [List.mem_append] at him2
      rcases him2 with h2 | h2
      · exact h im2 h2
      · rw [List.mem_singleton] at h2
        subst h2
        exact ⟨rfl, rfl⟩

/-- C7: the proactive-refresh pass scans exactly the entries that are
ready, idle, not initializing, and whose session age exceeds the max age;
before mutating an entry it re-checks idleness — an entry grabbed in the
meantime (busy again) is skipped untouched, and even an interference flag
alone leaves it unrefreshed; an idle entry is processed: its in-flight
state has `busy = true` and `initializing = true`, such a state is never
selectable by `acquire`, and every in-flight state the pass records is so
locked; when the refresh settles, success keeps `ready`, stamps the fresh
timestamp and clears the transient flags, while failure clears `ready`
and the timestamp and clears the transient flags. -/
theorem C7_refresh_recheck_lock_outcomes (now : Nat) (oc : Nat → RefreshOutcome)
    (grabbed : Nat → Bool) (p : ClientPool) (i : Nat) :
    (i ∈ staleIndices now p ↔
      ∃ h : i < p.entries.length,
        isStale now (p.entries.getD i dEntry) = true) ∧
    (∀ es mids, grabbed i = false → (es.getD i dEntry).busy = true →
      refreshStep now oc grabbed (es, mids) i = (es, mids)) ∧
    (∀ es mids, i < es.length → grabbed i = true →
      (refreshStep now oc grabbed (es, mids) i).2 = mids ∧
      (refreshStep now oc grabbed (es, mids) i).1.getD i dEntry =
        { es.getD i dEntry with busy := true }) ∧
    (∀ es mids, i < es.length → grabbed i = false →
      (es.getD i dEntry).busy = false →
      (refreshStep now oc grabbed (es, mids) i).2 =
        mids ++ [(i, refreshMid (es.getD i dEntry))] ∧
      (refreshStep now oc grabbed (es, mids) i).1.getD i dEntry =
        refreshFinish now (oc i) (refreshMid (es.getD i dEntry))) ∧
    (∀ e : Entry, (refreshMid e).busy = true ∧
      (refreshMid e).initializing = true ∧ isFree (refreshMid e) = false) ∧
    (∀ (q : ClientPool) (t : Option Nat) (w : Nat),
      (q.entries.getD i dEntry).busy = true →
      (acquire q t w).2 ≠ AcquireResult.acquired i) ∧
    (∀ e : Entry,
      (refreshFinish now RefreshOutcome.rOk e).ready = e.ready ∧
      (refreshFinish now RefreshOutcome.rOk e).sessionCreatedAt = some now ∧
      (refreshFinish now RefreshOutcome.rOk e).busy = false ∧
      (refreshFinish now RefreshOutcome.rOk e).initializing = false ∧
      (refreshFinish now RefreshOutcome.rFail e).ready = false ∧
      (refreshFinish now RefreshOutcome.rFail e).sessionCreatedAt = none ∧
      (refreshFinish now RefreshOutcome.rFail e).busy = false ∧
      (refreshFinish now RefreshOutcome.rFail e).initializing = false) ∧
    (∀ im ∈ (refreshPass now oc grabbed p).2,
      im.2.busy = true ∧ im.2.initializing = true) := by
  refine ⟨mem_staleIndices now p i, ?_, ?_, ?_, ?_,
    fun q t w hb => acquire_skips_busy q t w i hb, ?_, ?_⟩
  · intro es mids hg hb
    unfold refreshStep
    dsimp only
    simp only [hg, Bool.false_eq_true, if_false, hb, if_true]
    rw [updateAt_getD_id]
  · intro es mids hi hg
    unfold refreshStep
    dsimp only
    simp only [hg, if_true]
    refine ⟨by trivial, ?_⟩
    rw [updateAt_getD_self _ _ _ _ hi]
  · intro es mids hi hg hb
    unfold refreshStep
    dsimp only
    simp only [hg, Bool.false_eq_true, if_false, hb, if_true]
    refine ⟨by trivial, ?_⟩
    rw [updateAt_getD_self _ _ _ _ hi]
  · intro e
    refine ⟨rfl, rfl, ?_⟩
    simp [isFree, refreshMid]
  · intro e
    exact ⟨rfl, rfl, rfl, rfl, rfl, rfl, rfl, rfl⟩
  · intro im him
    unfold refreshPass at him
    dsimp only at him
    exact foldl_refreshStep_mids now oc grabbed _ _
      (by intro x hx; simp at hx) im him

/-- Witness for C7: at tick time 700000 `samplePool`'s entry 0 (session
created at 1000, age 699000 ms > 10 min) is stale, idle, processed, and
fails its refresh. -/
theorem C7_refresh_recheck_lock_outcomes_witness :
    0 < samplePool.entries.length ∧
    (fun _ => false) 0 = false ∧
    (samplePool.entries.getD 0 dEntry).busy = false ∧
    ((refreshStep 700000 (fun _ => RefreshOutcome.rFail) (fun _ => false)
        (samplePool.entries, []) 0).2 =
      [] ++ [(0, refreshMid (samplePool.entries.getD 0 dEntry))] ∧
      (refreshStep 700000 (fun _ => RefreshOutcome.rFail) (fun _ => false)
        (samplePool.entries, []) 0).1.getD 0 dEntry =
        refreshFinish 700000 ((fun _ => RefreshOutcome.rFail) 0)
          (refreshMid (samplePool.entries.getD 0 dEntry))) :=
  ⟨by decide, by decide, by decide,
    (C7_refresh_recheck_lock_outcomes 700000 (fun _ => RefreshOutcome.rFail)
      (fun _ => false) samplePool 0).2.2.2.1 samplePool.entries []
        (by decide) (by decide) (by decide)⟩

/-! ## Browser-semaphore lemmas (C8) -/

theorem semStep_preserves_inv (s : SemState) (op : SemOp) (h : semInv s) :
    semInv (semStep s op).1 := by
  obtain ⟨h1, h2⟩ := h
  cases op with
  | acq wid =>
    unfold semStep
    dsimp only
    by_cases hc : s.activeBrowsers < MAX_CONCURRENT_BROWSERS
    · rw [if_pos hc]
      refine ⟨hc, fun hq => ?_⟩
      exact absurd hc (by rw [h2 hq]; exact lt_irrefl _)
    · rw [if_neg hc]
      have heq : s.activeBrowsers = MAX_CONCURRENT_BROWSERS :=
        Nat.le_antisymm h1 (Nat.le_of_not_lt hc)
      exact ⟨h1, fun _ => heq⟩
  | rel =>
    unfold semStep
    dsimp only
    cases hq : s.browserQueue with
    | nil => exact ⟨Nat.le_trans (Nat.sub_le _ _) h1, fun hr => absurd rfl hr⟩
    | cons a rest =>
      have hact := h2 (by rw [hq]; simp)
      exact ⟨h1, fun _ => hact⟩

theorem semRun_inv (ops : List SemOp) (s : SemState) (h : semInv s) :
    semInv (semRun s ops) := by
  induction ops generalizing s with
  | nil => exact h
  | cons op rest ih => exact ih _ (semStep_preserves_inv s op h)

/-- C8: the browser-launch semaphore admits at most 3 concurrent holders —
from the module's initial state, `activeBrowsers` (the count of granted
slots not yet released) never exceeds `MAX_CONCURRENT_BROWSERS` along any
operation sequence; slots freed while waiters are queued go to the head
of the FIFO queue (arrivals append at the back); and a waiter has no
timeout: the only step that removes a waiter from the queue is a release
granting that very waiter. -/
theorem C8_browser_semaphore_cap_fifo_no_timeout :
    (∀ ops : List SemOp,
      (semRun semInit ops).activeBrowsers ≤ MAX_CONCURRENT_BROWSERS) ∧
    (∀ (s : SemState) (a : Nat) (rest : List Nat), s.browserQueue = a :: rest →
      semStep s SemOp.rel = ({ s with browserQueue := rest }, SemEv.granted a)) ∧
    (∀ (s : SemState) (w : Nat),
      MAX_CONCURRENT_BROWSERS ≤ s.activeBrowsers →
      semStep s (SemOp.acq w) =
        ({ s with browserQueue := s.browserQueue ++ [w] }, SemEv.queuedEv w)) ∧
    (∀ (s : SemState) (op : SemOp) (w : Nat),
      w ∈ s.browserQueue → w ∉ (semStep s op).1.browserQueue →
      (semStep s op).2 = SemEv.granted w ∧ op = SemOp.rel) := by
  refine ⟨?_, ?_, ?_, ?_⟩
  · intro ops
    exact (semRun_inv ops semInit ⟨by decide, fun h => absurd rfl h⟩).1
  · intro s a rest hq
    unfold semStep
    dsimp only
    rw [hq]
  · intro s w h
    unfold semStep
    dsimp only
    rw [if_neg (Nat.not_lt.mpr h)]
  · intro s op w hin hout
    cases op with
    | acq w2 =>
      unfold semStep at hout
      dsimp only at hout
      by_cases hc : s.activeBrowsers < MAX_CONCURRENT_BROWSERS
      · rw [if_pos hc] at hout
        exact absurd hin hout
      · rw [if_neg hc] at hout
        exact absurd (List.mem_append_left [w2] hin) hout
    | rel =>
      unfold semStep at hout ⊢
      dsimp only at hout ⊢
      cases hq : s.browserQueue with
      | nil =>
        rw [hq] at hin
        simp at hin
      | cons a rest =>
        rw [hq] at hin
        refine ⟨?_, rfl⟩
        rw [List.mem_cons] at hin
        rcases hin with hin | hin
        · rw [hin]
        · rw [hq] at hout
          exact absurd hin hout

/-- Witness for C8's FIFO conjunct: releasing with 3 holders and waiters
`[7, 8]` grants the oldest waiter 7. -/
theorem C8_browser_semaphore_cap_fifo_no_timeout_witness :
    (SemState.mk 3 [7, 8]).browserQueue = 7 :: [8] ∧
    semStep ⟨3, [7, 8]⟩ SemOp.rel = (⟨3, [8]⟩, SemEv.granted 7) :=
  ⟨by decide,
    C8_browser_semaphore_cap_fifo_no_timeout.2.1 ⟨3, [7, 8]⟩ 7 [8] (by decide)⟩

/-- C9 (refutation support): the `MetaAIClient` constructor declares only
`(proxy, id)`; the `{ browserProxy }` object the pool passes as a third
argument is discarded, so the clients a pool constructs are identical
whatever `browserProxy` it was configured with — the browser-transport
proxy option never reaches any Resource's SessionProvider. -/
theorem C9_browserProxy_dropped :
    (∀ (proxy : Option String) (idv : Option Nat)
        (e1 e2 : Option ClientExtraOpts),
      MetaAIClient.construct proxy idv e1 = MetaAIClient.construct proxy idv e2) ∧
    (ClientPool.construct 2
        { queueTimeout := none, proxy := none,
          browserProxy := some "http://bp:8080" }).entries =
      (ClientPool.construct 2
        { queueTimeout := none, proxy := none, browserProxy := none }).entries ∧
    (∀ (n : Nat) (qt : Option Nat) (pr bp1 bp2 : Option String),
      (ClientPool.construct n ⟨qt, pr, bp1⟩).entries =
        (ClientPool.construct n ⟨qt, pr, bp2⟩).entries) :=
  ⟨fun _ _ _ _ => rfl, rfl, fun _ _ _ _ _ => rfl⟩

/-- C10: every falsy timeout falls back to the default — a pool built with
`queueTimeout = 0` (or none) gets the 120000 ms default; `acquire(0)` and
`acquire()` arm the queue timer with the pool-wide default; and a zero
effective timeout is unreachable through the public interface (every
constructed pool has a non-zero `queueTimeout`, and the armed timer
duration is non-zero on any pool whose `queueTimeout` is non-zero). -/
theorem C10_falsy_timeout_defaults (pr bp : Option String) (n : Nat)
    (p : ClientPool) (w : Nat) :
    ((ClientPool.construct n ⟨some 0, pr, bp⟩).queueTimeout =
      DEFAULT_QUEUE_TIMEOUT) ∧
    ((ClientPool.construct n ⟨none, pr, bp⟩).queueTimeout =
      DEFAULT_QUEUE_TIMEOUT) ∧
    (∀ wid tm, (acquire p (some 0) w).2 = AcquireResult.enqueued wid tm →
      tm = p.queueTimeout) ∧
    (∀ wid tm, (acquire p none w).2 = AcquireResult.enqueued wid tm →
      tm = p.queueTimeout) ∧
    (∀ opts : PoolOpts, (ClientPool.construct n opts).queueTimeout ≠ 0) ∧
    (∀ (t : Option Nat) (wid tm : Nat), p.queueTimeout ≠ 0 →
      (acquire p t w).2 = AcquireResult.enqueued wid tm → tm ≠ 0) := by
  have henq : ∀ (t : Option Nat) (wid tm : Nat),
      (acquire p t w).2 = AcquireResult.enqueued wid tm →
      wid = w ∧ tm = jsOrNat t p.queueTimeout := by
    intro t wid tm h
    unfold acquire at h
    cases hf : p.entries.findIdx? isFree with
    | some k =>
      rw [hf] at h
      simp at h
    | none =>
      rw [hf] at h
      dsimp only at h
      by_cases hr : (p.entries.filter (fun e => e.ready)).length = 0
      · rw [if_pos hr] at h
        simp at h
      · rw [if_neg hr] at h
        dsimp only at h
        injection h with h1 h2
        exact ⟨h1.symm, h2.symm⟩
  refine ⟨rfl, rfl, ?_, ?_, ?_, ?_⟩
  · intro wid tm h
    exact (henq (some 0) wid tm h).2
  · intro wid tm h
    exact (henq none wid tm h).2
  · intro opts
    show jsOrNat opts.queueTimeout DEFAULT_QUEUE_TIMEOUT ≠ 0
    unfold jsOrNat
    cases opts.queueTimeout with
    | none => decide
    | some m =>
      dsimp only
      by_cases hm : m = 0
      · rw [if_pos hm]; decide
      · rw [if_neg hm]; exact hm
  · intro t wid tm hqt h
    rw [(henq t wid tm h).2]
    unfold jsOrNat
    cases t with
    | none => exact hqt
    | some m =>
      dsimp only
      by_cases hm : m = 0
      · rw [if_pos hm]; exact hqt
      · rw [if_neg hm]; exact hm

/-- Witness for C10: on `busyPoolQ` (ready entry busy), `acquire(0)` is
enqueued with the pool's 120000 ms default as its timer. -/
theorem C10_falsy_timeout_defaults_witness :
    (acquire busyPoolQ (some 0) 9).2 = AcquireResult.enqueued 9 120000 ∧
    (120000 : Nat) = busyPoolQ.queueTimeout :=
  ⟨by decide,
    (C10_falsy_timeout_defaults none none 1 busyPoolQ 9).2.2.1 9 120000
      (by decide)⟩

end CloroPool
